import Mathlib

/-!
# Verification of the Windows COFF symbolizer (`unwind_windows.c`)

A shallow embedding of `src/clang_tool_chain/symbolizer/unwind_windows.c`:
COFF symbol-table parsing from a mapped PE image, the two-pass table build,
the address-sorted symbol table, binary floor search with a 1 MiB proximity
threshold, and the lazy one-time initialization lifecycle
(`ensure_initialized` / `unw_windows_sym_init` / `unw_windows_sym_cleanup` /
`unw_get_proc_name_windows`).

Machine integers are modelled as `Nat` / `Int`; the Windows API calls that
can fail (`GetModuleFileNameA`, `CreateFileA`, `CreateFileMappingA` +
`MapViewOfFile`, `malloc`) are modelled as boolean outcomes in an
environment record, and the mapped file contents as a structured image.
The single-threaded execution of the C code is modelled by explicit state
passing; `parseCount` is a ghost field counting executions of the parse
pipeline.
-/

/-- libunwind error code `UNW_EUNSPEC` (LLVM libunwind value). -/
def UNW_EUNSPEC : Int := -6540

/-- libunwind error code `UNW_ENOINFO` (LLVM libunwind value). -/
def UNW_ENOINFO : Int := -6549

/-- `IMAGE_SCN_CNT_CODE` section characteristic flag. -/
def IMAGE_SCN_CNT_CODE : Nat := 0x20

/-- `IMAGE_SCN_MEM_EXECUTE` section characteristic flag. -/
def IMAGE_SCN_MEM_EXECUTE : Nat := 0x20000000

/-- The fields of `IMAGE_SECTION_HEADER` that the symbolizer reads. -/
structure IMAGE_SECTION_HEADER where
  virtualAddress : Nat
  characteristics : Nat
  deriving DecidableEq

instance : Inhabited IMAGE_SECTION_HEADER := ⟨⟨0, 0⟩⟩

/-- One raw 18-byte COFF symbol record.  The 8-byte name field is kept as
raw bytes (`nameBytes`), since the C code reads it both as an inline short
name and, through the union, as two little-endian DWORDs
(`LongName.Zeros` / `LongName.Offset`). -/
structure COFF_SYMBOL where
  nameBytes : List Nat
  value : Nat
  sectionNumber : Int
  typ : Nat
  storage_cls : Nat
  numberOfAuxSymbols : Nat
  deriving DecidableEq

instance : Inhabited COFF_SYMBOL := ⟨⟨[], 0, 0, 0, 0, 0⟩⟩

/-- Little-endian DWORD from four bytes. -/
def dwordLE (b0 b1 b2 b3 : Nat) : Nat := b0 + 256 * (b1 + 256 * (b2 + 256 * b3))

/-- The `Name.LongName.Zeros` view of the name union (first four bytes). -/
def COFF_SYMBOL.longNameZeros (s : COFF_SYMBOL) : Nat :=
  dwordLE (s.nameBytes.getD 0 0) (s.nameBytes.getD 1 0) (s.nameBytes.getD 2 0) (s.nameBytes.getD 3 0)

/-- The `Name.LongName.Offset` view of the name union (last four bytes). -/
def COFF_SYMBOL.longNameOffset (s : COFF_SYMBOL) : Nat :=
  dwordLE (s.nameBytes.getD 4 0) (s.nameBytes.getD 5 0) (s.nameBytes.getD 6 0) (s.nameBytes.getD 7 0)

/-- The contents of the mapped PE file as far as `parse_coff_symbols`
reads them.  `symbols` holds the `NumberOfSymbols` raw records of the
COFF symbol table (aux records included, as raw records); `stringTable`
is the byte region following the symbol table. -/
structure CoffImage where
  dosMagicOk : Bool
  ntSignatureOk : Bool
  imageBase : Nat
  symbolTableOffset : Nat
  sections : List IMAGE_SECTION_HEADER
  symbols : List COFF_SYMBOL
  stringTable : List Nat
  deriving DecidableEq

/-- Outcomes of the Windows API calls made during `parse_coff_symbols`,
plus the mapped image contents and the module's runtime load base. -/
structure WinEnv where
  pathOk : Bool
  runtimeBase : Nat
  fileOk : Bool
  mapOk : Bool
  mallocOk : Bool
  image : CoffImage
  deriving DecidableEq

/-- `symbol_entry_t`: one entry of the built symbol table.  `name` holds
the bytes of the stored C string (the bytes before its NUL terminator). -/
structure symbol_entry_t where
  address : Nat
  name : List Nat
  deriving DecidableEq

instance : Inhabited symbol_entry_t := ⟨⟨0, []⟩⟩

/-- The global mutable state of the C file: `g_initialized`,
`g_symbol_table` (NULL modelled as `none`), `g_symbol_count`,
`g_image_base`, `g_runtime_base`; `parseCount` is a ghost counter of
`parse_coff_symbols` executions. -/
structure SymState where
  initialized : Bool
  symbolTable : Option (List symbol_entry_t)
  symbolCount : Nat
  imageBase : Nat
  runtimeBase : Nat
  parseCount : Nat
  deriving DecidableEq

/-- The state of a freshly loaded process: all globals zero/NULL. -/
def initState : SymState := ⟨false, none, 0, 0, 0, 0⟩

/-- `is_executable_section`: the section has `IMAGE_SCN_CNT_CODE` or
`IMAGE_SCN_MEM_EXECUTE` set. -/
def is_executable_section (sec : IMAGE_SECTION_HEADER) : Bool :=
  sec.characteristics &&& IMAGE_SCN_CNT_CODE ≠ 0 ||
  sec.characteristics &&& IMAGE_SCN_MEM_EXECUTE ≠ 0

/-- `is_text_symbol`: valid 1-based section index, executable section, and
(function derived type, or external/static storage class). -/
def is_text_symbol (sym : COFF_SYMBOL) (sections : List IMAGE_SECTION_HEADER) : Bool :=
  if sym.sectionNumber ≤ 0 || sym.sectionNumber > (sections.length : Int) then
    false
  else
    let sec := sections.getD (sym.sectionNumber.toNat - 1) default
    if !is_executable_section sec then
      false
    else
      let derived_type := (sym.typ >>> 4) &&& 0x3
      if derived_type = 2 then true
      else if sym.storage_cls = 2 || sym.storage_cls = 3 then true
      else false

/-- The C string starting at byte offset `off` of a byte region: the bytes
from `off` up to (excluding) the first NUL. -/
def readCString (bytes : List Nat) (off : Nat) : List Nat :=
  (bytes.drop off).takeWhile (fun b => b ≠ 0)

/-- The name extracted for a symbol record in the fill pass: a long name is
read from the string table at `LongName.Offset` and truncated to 255 bytes
(`strncpy` into `char name[256]`); a short name is the NUL-clipped content
of the inline 8-byte field (`memcpy` of 8 bytes, then `name[8] = 0`). -/
def symbolName (sym : COFF_SYMBOL) (stringTable : List Nat) : List Nat :=
  if sym.longNameZeros = 0 then
    (readCString stringTable sym.longNameOffset).take 255
  else
    (sym.nameBytes.take 8).takeWhile (fun b => b ≠ 0)

/-- The counting pass of `parse_coff_symbols` (lines 190-200): walk the raw
records from index `i`, counting text symbols, advancing by
`1 + NumberOfAuxSymbols` per visited record. -/
def countLoop (symbols : List COFF_SYMBOL) (sections : List IMAGE_SECTION_HEADER)
    (i : Nat) (acc : Nat) : Nat :=
  if h : i < symbols.length then
    let sym := symbols.get ⟨i, h⟩
    countLoop symbols sections (i + 1 + sym.numberOfAuxSymbols)
      (if is_text_symbol sym sections then acc + 1 else acc)
  else acc
termination_by symbols.length - i
decreasing_by simp_wf; omega

/-- The entry the fill pass stores for a qualifying symbol record:
runtime address `runtime_base + section.VirtualAddress + Value` and the
name truncated to 255 bytes (`strncpy` into the 256-byte entry field). -/
def entryOf (img : CoffImage) (rbase : Nat) (sym : COFF_SYMBOL) : symbol_entry_t :=
  ⟨rbase + ((img.sections.getD (sym.sectionNumber.toNat - 1) default).virtualAddress + sym.value),
   (symbolName sym img.stringTable).take 255⟩

/-- The fill pass of `parse_coff_symbols` (lines 218-257): walk the raw
records from index `i` while `i < NumberOfSymbols && idx < func_count`,
skipping non-text records and records whose extracted name starts with
`'.'`, storing an entry for each remaining record, advancing by
`1 + NumberOfAuxSymbols` per visited record. -/
def fillLoop (img : CoffImage) (rbase : Nat) (funcCount : Nat)
    (i idx : Nat) (acc : List symbol_entry_t) : List symbol_entry_t :=
  if h : i < img.symbols.length ∧ idx < funcCount then
    let sym := img.symbols.get ⟨i, h.1⟩
    if !is_text_symbol sym img.sections then
      fillLoop img rbase funcCount (i + 1 + sym.numberOfAuxSymbols) idx acc
    else
      let name := symbolName sym img.stringTable
      if name.headD 0 = 46 then
        fillLoop img rbase funcCount (i + 1 + sym.numberOfAuxSymbols) idx acc
      else
        fillLoop img rbase funcCount (i + 1 + sym.numberOfAuxSymbols) (idx + 1)
          (acc ++ [entryOf img rbase sym])
  else acc
termination_by img.symbols.length - i
decreasing_by all_goals simp_wf; omega

/-- Ordered insertion by ascending address (helper for `sortEntries`). -/
def insertEntry (e : symbol_entry_t) : List symbol_entry_t → List symbol_entry_t
  | [] => [e]
  | x :: xs => if e.address ≤ x.address then e :: x :: xs else x :: insertEntry e xs

/-- The `qsort(..., compare_symbols)` call: an address-ascending sort.
`qsort` leaves the relative order of equal keys unspecified, so any
comparator-consistent sort models it; insertion sort is used so the model
reduces in the kernel. -/
def sortEntries : List symbol_entry_t → List symbol_entry_t
  | [] => []
  | x :: xs => insertEntry x (sortEntries xs)

/-- `parse_coff_symbols` (lines 115-269): locate and map the executable,
validate DOS and NT headers, read the COFF symbol table, and build the
sorted global symbol table.  Returns the C return value and the updated
global state. -/
def parse_coff_symbols (env : WinEnv) (st : SymState) : Int × SymState :=
  if !env.pathOk then (-1, st)
  else
    let st1 := { st with runtimeBase := env.runtimeBase }
    if !env.fileOk then (-1, st1)
    else if !env.mapOk then (-1, st1)
    else if !env.image.dosMagicOk then (-1, st1)
    else if !env.image.ntSignatureOk then (-1, st1)
    else
      let st2 := { st1 with imageBase := env.image.imageBase }
      if env.image.symbolTableOffset = 0 || env.image.symbols.length = 0 then (0, st2)
      else
        let funcCount := countLoop env.image.symbols env.image.sections 0 0
        if funcCount = 0 then (0, st2)
        else if !env.mallocOk then (-1, st2)
        else
          let entries := fillLoop env.image env.runtimeBase funcCount 0 0 []
          (0, { st2 with symbolTable := some (sortEntries entries),
                         symbolCount := entries.length })

/-- `ensure_initialized` (lines 272-291): if already initialized return 0;
otherwise run the parse pipeline once, mark initialized, and return the
parse result.  (The critical-section double-check collapses to this in the
sequential model; `parseCount` counts pipeline executions.) -/
def ensure_initialized (env : WinEnv) (st : SymState) : Int × SymState :=
  if st.initialized then (0, st)
  else
    let p := parse_coff_symbols env st
    (p.1, { p.2 with initialized := true, parseCount := p.2.parseCount + 1 })

/-- `unw_windows_sym_init` (lines 293-295). -/
def unw_windows_sym_init (env : WinEnv) (st : SymState) : Int × SymState :=
  ensure_initialized env st

/-- `unw_windows_sym_cleanup` (lines 297-310): free the table, zero the
count, clear the initialized flag; a no-op when not initialized. -/
def unw_windows_sym_cleanup (st : SymState) : SymState :=
  if st.initialized then
    { st with symbolTable := none, symbolCount := 0, initialized := false }
  else st

/-- The binary floor search of `find_symbol` (lines 318-331): track the
best-so-far entry with address ≤ target while narrowing `[low, high)`. -/
def findLoop (table : List symbol_entry_t) (address : Nat)
    (low high : Nat) (best : Option symbol_entry_t) : Option symbol_entry_t :=
  if h : low < high then
    let mid := low + (high - low) / 2
    if (table.getD mid default).address ≤ address then
      findLoop table address (mid + 1) high (some (table.getD mid default))
    else
      findLoop table address low mid best
  else best
termination_by high - low
decreasing_by
  all_goals simp_wf
  · omega
  · have := Nat.div_lt_self (Nat.sub_pos_of_lt h) (by omega : 1 < 2)
    omega

/-- `find_symbol` (lines 313-339): NULL/empty table gives no match;
otherwise the floor search result is accepted only when the query is less
than 1 MiB past it.  (`address - best->address` is 64-bit subtraction in C;
the loop only ever records entries with address ≤ the query, so `Nat`
subtraction coincides with it, see `findLoop_le`.) -/
def find_symbol (st : SymState) (address : Nat) : Option symbol_entry_t :=
  match st.symbolTable with
  | none => none
  | some table =>
    if st.symbolCount = 0 then none
    else
      match findLoop table address 0 st.symbolCount none with
      | some best => if address - best.address < 0x100000 then some best else none
      | none => none

/-- A libunwind cursor as this code observes it: whether
`unw_get_reg(cursor, UNW_REG_IP, &ip)` succeeds, and the IP it yields. -/
structure unw_cursor_t where
  regOk : Bool
  ip : Nat
  deriving DecidableEq

/-- The observable outcome of `unw_get_proc_name_windows`: the return
value, the bytes written into `buf` (NUL terminator included; `none` when
the buffer is untouched), the value stored through `offp` (`none` when
untouched or not requested), and the global state afterwards. -/
structure ProcNameOut where
  ret : Int
  bufOut : Option (List Nat)
  offOut : Option Nat
  state : SymState
  deriving DecidableEq

/-- `unw_get_proc_name_windows` (lines 341-382): argument guard, lazy
initialization, IP fetch, floor lookup, truncating copy into `buf`, and
optional offset output.  `cursor = none` models a NULL cursor,
`bufNonNull = false` a NULL buffer, `offRequested = false` a NULL `offp`. -/
def unw_get_proc_name_windows (env : WinEnv) (st : SymState)
    (cursor : Option unw_cursor_t) (bufNonNull : Bool) (buf_len : Nat)
    (offRequested : Bool) : ProcNameOut :=
  if cursor.isNone || !bufNonNull || buf_len = 0 then
    ⟨UNW_EUNSPEC, none, none, st⟩
  else
    let cur := cursor.getD ⟨false, 0⟩
    let p := ensure_initialized env st
    if p.1 ≠ 0 then ⟨UNW_EUNSPEC, none, none, p.2⟩
    else if !cur.regOk then ⟨UNW_EUNSPEC, none, none, p.2⟩
    else if cur.ip = 0 then ⟨UNW_ENOINFO, none, none, p.2⟩
    else
      match find_symbol p.2 cur.ip with
      | none => ⟨UNW_ENOINFO, none, none, p.2⟩
      | some sym =>
        let name_len := if sym.name.length ≥ buf_len then buf_len - 1 else sym.name.length
        ⟨0, some (sym.name.take name_len ++ [0]),
         if offRequested then some (cur.ip - sym.address) else none, p.2⟩

/-! ## Supporting lemmas: sorting -/

/-- Membership through `insertEntry`. -/
theorem mem_insertEntry (e a : symbol_entry_t) (l : List symbol_entry_t) :
    a ∈ insertEntry e l ↔ a = e ∨ a ∈ l := by
  induction l with
  | nil => simp [insertEntry]
  | cons x xs ih =>
    by_cases h : e.address ≤ x.address
    · simp [insertEntry, h]
    · simp [insertEntry, h, ih]
      tauto

/-- `sortEntries` permutes: same members. -/
theorem mem_sortEntries (a : symbol_entry_t) (l : List symbol_entry_t) :
    a ∈ sortEntries l ↔ a ∈ l := by
  induction l with
  | nil => simp [sortEntries]
  | cons x xs ih => simp [sortEntries, mem_insertEntry, ih]

/-! ## Supporting lemmas: binary floor search -/

/-- Everything `findLoop` returns was recorded under an `address ≤ query`
comparison, so the returned entry's address never exceeds the query (this
is what makes `Nat` subtraction in `find_symbol` agree with the C code's
64-bit subtraction). -/
theorem findLoop_le (table : List symbol_entry_t) (addr : Nat) :
    ∀ n low high best, high - low ≤ n →
      (∀ b, best = some b → b.address ≤ addr) →
      ∀ b, findLoop table addr low high best = some b → b.address ≤ addr := by
  intro n
  induction n with
  | zero =>
    intro low high best h1 hbest b hb
    rw [findLoop] at hb
    rw [dif_neg (by omega : ¬ low < high)] at hb
    exact hbest b hb
  | succ n ih =>
    intro low high best h1 hbest b hb
    rw [findLoop] at hb
    by_cases hlh : low < high
    · rw [dif_pos hlh] at hb
      simp only at hb
      by_cases hcmp : (table.getD (low + (high - low) / 2) default).address ≤ addr
      · rw [if_pos hcmp] at hb
        have hmid : low + (high - low) / 2 < high := by
          have := Nat.div_lt_self (show 0 < high - low by omega) (show 1 < 2 by omega)
          omega
        refine ih _ _ _ (by omega) ?_ b hb
        intro b' hb'
        injection hb' with hb'
        rw [← hb']
        exact hcmp
      · rw [if_neg hcmp] at hb
        have hmid : low + (high - low) / 2 < high := by
          have := Nat.div_lt_self (show 0 < high - low by omega) (show 1 < 2 by omega)
          omega
        exact ih _ _ _ (by omega) hbest b hb
    · rw [dif_neg hlh] at hb
      exact hbest b hb

/-- Floor correctness of the binary search: when index `i` is the floor of
`addr` in an address-monotone table (its address does not exceed `addr`,
every later index exceeds it), the search over any window satisfying the
loop invariant returns entry `i`. -/
theorem findLoop_floor (table : List symbol_entry_t) (addr i : Nat)
    (hi : i < table.length)
    (hle : (table.getD i default).address ≤ addr)
    (hup : ∀ j, i < j → j < table.length → addr < (table.getD j default).address)
    (hmono : ∀ a b, a ≤ b → b < table.length →
      (table.getD a default).address ≤ (table.getD b default).address) :
    ∀ n low high best, high - low ≤ n → low ≤ i + 1 → i < high → high ≤ table.length →
      (low = i + 1 → best = some (table.getD i default)) →
      findLoop table addr low high best = some (table.getD i default) := by
  intro n
  induction n with
  | zero =>
    intro low high best h1 h2 h3 h4 h5
    rw [findLoop, dif_neg (by omega : ¬ low < high)]
    exact h5 (by omega)
  | succ n ih =>
    intro low high best h1 h2 h3 h4 h5
    rw [findLoop]
    by_cases hlh : low < high
    · rw [dif_pos hlh]
      simp only
      have hmid : low + (high - low) / 2 < high := by
        have := Nat.div_lt_self (show 0 < high - low by omega) (show 1 < 2 by omega)
        omega
      by_cases hcmp : (table.getD (low + (high - low) / 2) default).address ≤ addr
      · rw [if_pos hcmp]
        have hmi : low + (high - low) / 2 ≤ i := by
          by_contra hc
          push_neg at hc
          exact absurd hcmp (not_le.mpr (hup _ hc (by omega)))
        refine ih _ _ _ (by omega) (by omega) h3 h4 ?_
        intro hl
        have : low + (high - low) / 2 = i := by omega
        rw [this]
      · rw [if_neg hcmp]
        have him : i < low + (high - low) / 2 := by
          by_contra hc
          push_neg at hc
          exact hcmp (le_trans (hmono _ i hc hi) hle)
        exact ih _ _ _ (by omega) h2 him (by omega) h5
    · rw [dif_neg hlh]
      exact h5 (by omega)

/-- `find_symbol` at a floor index within the proximity threshold returns
that entry. -/
theorem find_symbol_floor (st : SymState) (table : List symbol_entry_t) (addr i : Nat)
    (htab : st.symbolTable = some table)
    (hcount : st.symbolCount = table.length)
    (hi : i < table.length)
    (hle : (table.getD i default).address ≤ addr)
    (hup : ∀ j, i < j → j < table.length → addr < (table.getD j default).address)
    (hmono : ∀ a b, a ≤ b → b < table.length →
      (table.getD a default).address ≤ (table.getD b default).address)
    (hnear : addr - (table.getD i default).address < 0x100000) :
    find_symbol st addr = some (table.getD i default) := by
  unfold find_symbol
  rw [htab]
  simp only
  rw [if_neg (by omega : ¬ st.symbolCount = 0)]
  rw [hcount]
  rw [findLoop_floor table addr i hi hle hup hmono table.length 0 table.length none
    (by omega) (by omega) hi le_rfl (by omega)]
  simp only
  rw [if_pos hnear]

/-- `find_symbol` at a floor index at or beyond the proximity threshold is
a miss. -/
theorem find_symbol_far (st : SymState) (table : List symbol_entry_t) (addr i : Nat)
    (htab : st.symbolTable = some table)
    (hcount : st.symbolCount = table.length)
    (hi : i < table.length)
    (hle : (table.getD i default).address ≤ addr)
    (hup : ∀ j, i < j → j < table.length → addr < (table.getD j default).address)
    (hmono : ∀ a b, a ≤ b → b < table.length →
      (table.getD a default).address ≤ (table.getD b default).address)
    (hfar : ¬ addr - (table.getD i default).address < 0x100000) :
    find_symbol st addr = none := by
  unfold find_symbol
  rw [htab]
  simp only
  rw [if_neg (by omega : ¬ st.symbolCount = 0)]
  rw [hcount]
  rw [findLoop_floor table addr i hi hle hup hmono table.length 0 table.length none
    (by omega) (by omega) hi le_rfl (by omega)]
  simp only
  rw [if_neg hfar]

/-! ## Supporting definitions and lemmas: primary-record iteration -/

/-- The primary symbol records reached when walking the raw record array
from index `i`, advancing by `1 + NumberOfAuxSymbols` per record (the
iteration order shared by both passes of `parse_coff_symbols`). -/
def primsFrom (symbols : List COFF_SYMBOL) (i : Nat) : List COFF_SYMBOL :=
  if h : i < symbols.length then
    symbols.get ⟨i, h⟩ ::
      primsFrom symbols (i + 1 + (symbols.get ⟨i, h⟩).numberOfAuxSymbols)
  else []
termination_by symbols.length - i
decreasing_by simp_wf; omega

/-- The raw indices visited as primary records when walking from index `i`. -/
def primIdxFrom (symbols : List COFF_SYMBOL) (i : Nat) : List Nat :=
  if h : i < symbols.length then
    i :: primIdxFrom symbols (i + 1 + (symbols.get ⟨i, h⟩).numberOfAuxSymbols)
  else []
termination_by symbols.length - i
decreasing_by simp_wf; omega

/-- A record qualifies for the fill pass: text symbol whose extracted name
does not start with the internal marker `'.'` (byte 46). -/
def qualifies (img : CoffImage) (sym : COFF_SYMBOL) : Bool :=
  is_text_symbol sym img.sections && !((symbolName sym img.stringTable).headD 0 = 46)

/-- Visited primary records are records of the raw array. -/
theorem primsFrom_subset (symbols : List COFF_SYMBOL) :
    ∀ n i, symbols.length - i ≤ n → ∀ s ∈ primsFrom symbols i, s ∈ symbols := by
  intro n
  induction n with
  | zero =>
    intro i h s hs
    rw [primsFrom, dif_neg (by omega : ¬ i < symbols.length)] at hs
    simp at hs
  | succ n ih =>
    intro i h s hs
    rw [primsFrom] at hs
    by_cases hi : i < symbols.length
    · rw [dif_pos hi] at hs
      rcases List.mem_cons.mp hs with h1 | h1
      · rw [h1]; exact symbols.get_mem _ _
      · exact ih _ (by omega) s h1
    · rw [dif_neg hi] at hs
      simp at hs

/-- Every index visited from `i` is at least `i`. -/
theorem primIdxFrom_ge (symbols : List COFF_SYMBOL) :
    ∀ n i, symbols.length - i ≤ n → ∀ j ∈ primIdxFrom symbols i, i ≤ j := by
  intro n
  induction n with
  | zero =>
    intro i h j hj
    rw [primIdxFrom, dif_neg (by omega : ¬ i < symbols.length)] at hj
    simp at hj
  | succ n ih =>
    intro i h j hj
    rw [primIdxFrom] at hj
    by_cases hi : i < symbols.length
    · rw [dif_pos hi] at hj
      rcases List.mem_cons.mp hj with h1 | h1
      · omega
      · have := ih _ (by omega) j h1
        omega
    · rw [dif_neg hi] at hj
      simp at hj

/-- The visited records are exactly the raw records at the visited indices. -/
theorem primsFrom_eq_map (symbols : List COFF_SYMBOL) :
    ∀ n i, symbols.length - i ≤ n →
      primsFrom symbols i = (primIdxFrom symbols i).map (fun k => symbols.getD k default) := by
  intro n
  induction n with
  | zero =>
    intro i h
    rw [primsFrom, primIdxFrom, dif_neg (by omega : ¬ i < symbols.length),
      dif_neg (by omega : ¬ i < symbols.length)]
    simp
  | succ n ih =>
    intro i h
    rw [primsFrom, primIdxFrom]
    by_cases hi : i < symbols.length
    · rw [dif_pos hi, dif_pos hi]
      rw [List.map_cons, ih _ (by omega)]
      congr 1
      rw [List.getD_eq_getElem?_getD, List.getElem?_eq_getElem hi]
      simp [List.get_eq_getElem]
    · rw [dif_neg hi, dif_neg hi]
      simp

/-- The aux records shadowed by a visited primary record are never
themselves visited: no index in `(p, p + aux_count(p)]` is visited. -/
theorem primIdxFrom_skip (symbols : List COFF_SYMBOL) :
    ∀ n i, symbols.length - i ≤ n →
      ∀ p ∈ primIdxFrom symbols i, ∀ j, p < j →
        j ≤ p + (symbols.getD p default).numberOfAuxSymbols →
        j ∉ primIdxFrom symbols i := by
  intro n
  induction n with
  | zero =>
    intro i h p hp
    rw [primIdxFrom, dif_neg (by omega : ¬ i < symbols.length)] at hp
    simp at hp
  | succ n ih =>
    intro i h p hp j hpj hjle hj
    rw [primIdxFrom] at hp hj
    by_cases hi : i < symbols.length
    · rw [dif_pos hi] at hp hj
      have hgetd : symbols.getD i default = symbols.get ⟨i, hi⟩ := by
        rw [List.getD_eq_getElem?_getD, List.getElem?_eq_getElem hi]
        simp [List.get_eq_getElem]
      rcases List.mem_cons.mp hp with h1 | h1
      · subst h1
        rcases List.mem_cons.mp hj with h2 | h2
        · omega
        · have := primIdxFrom_ge symbols (symbols.length - (p + 1 + (symbols.get ⟨p, hi⟩).numberOfAuxSymbols)) _ le_rfl j h2
          rw [hgetd] at hjle
          omega
      · rcases List.mem_cons.mp hj with h2 | h2
        · have := primIdxFrom_ge symbols (symbols.length - (i + 1 + (symbols.get ⟨i, hi⟩).numberOfAuxSymbols)) _ le_rfl p h1
          omega
        · exact ih _ (by omega) p h1 j hpj hjle h2
    · rw [dif_neg hi] at hp
      simp at hp

/-- The counting pass counts exactly the text symbols among the visited
primary records. -/
theorem countLoop_eq (symbols : List COFF_SYMBOL) (sections : List IMAGE_SECTION_HEADER) :
    ∀ n i acc, symbols.length - i ≤ n →
      countLoop symbols sections i acc
        = acc + ((primsFrom symbols i).filter (fun s => is_text_symbol s sections)).length := by
  intro n
  induction n with
  | zero =>
    intro i acc h
    rw [countLoop, primsFrom, dif_neg (by omega : ¬ i < symbols.length),
      dif_neg (by omega : ¬ i < symbols.length)]
    simp
  | succ n ih =>
    intro i acc h
    rw [countLoop, primsFrom]
    by_cases hi : i < symbols.length
    · rw [dif_pos hi, dif_pos hi]
      simp only
      rw [ih _ _ (by omega)]
      by_cases ht : is_text_symbol (symbols.get ⟨i, hi⟩) sections
      · rw [if_pos ht, List.filter_cons_of_pos (by simpa using ht)]
        simp
        omega
      · rw [if_neg ht, List.filter_cons_of_neg (by simpa using ht)]
    · rw [dif_neg hi, dif_neg hi]
      simp

/-- A qualifying record is a text record. -/
theorem qualifies_text {img : CoffImage} {s : COFF_SYMBOL} (h : qualifies img s = true) :
    is_text_symbol s img.sections = true := by
  unfold qualifies at h
  exact (Bool.and_eq_true_iff.mp h).1

/-- The fill pass produces exactly one entry per qualifying visited
primary record, in visit order, provided the capacity `funcCount` is at
least `idx` plus the number of text records still to visit (this is the
loop invariant established by the counting pass). -/
theorem fillLoop_eq (img : CoffImage) (rbase : Nat) (funcCount : Nat) :
    ∀ n i idx acc, img.symbols.length - i ≤ n →
      idx + ((primsFrom img.symbols i).filter
        (fun s => is_text_symbol s img.sections)).length ≤ funcCount →
      fillLoop img rbase funcCount i idx acc
        = acc ++ ((primsFrom img.symbols i).filter (qualifies img)).map (entryOf img rbase) := by
  intro n
  induction n with
  | zero =>
    intro i idx acc h hinv
    rw [fillLoop, primsFrom, dif_neg (by omega : ¬ i < img.symbols.length)]
    rw [dif_neg (show ¬ (i < img.symbols.length ∧ idx < funcCount) by omega)]
    simp
  | succ n ih =>
    intro i idx acc h hinv
    by_cases hi : i < img.symbols.length
    · rw [primsFrom, dif_pos hi] at hinv ⊢
      have hget : img.symbols.get ⟨i, hi⟩ = img.symbols[i] := rfl
      rw [hget] at hinv ⊢
      by_cases ht : is_text_symbol img.symbols[i] img.sections
      · rw [List.filter_cons_of_pos (by rw [ht])] at hinv
        have hidx : idx < funcCount := by
          rw [List.length_cons] at hinv
          omega
        rw [fillLoop, dif_pos ⟨hi, hidx⟩]
        simp only
        rw [hget]
        rw [if_neg (by rw [ht]; simp)]
        by_cases hdot : (symbolName img.symbols[i] img.stringTable).headD 0 = 46
        · rw [if_pos hdot]
          have hq : ¬ qualifies img img.symbols[i] = true := by
            unfold qualifies
            rw [ht, decide_eq_true hdot]
            simp
          rw [List.filter_cons_of_neg hq]
          refine ih _ _ _ (by omega) ?_
          rw [List.length_cons] at hinv
          omega
        · rw [if_neg hdot]
          have hq : qualifies img img.symbols[i] = true := by
            unfold qualifies
            rw [ht, decide_eq_false hdot]
            rfl
          rw [List.filter_cons_of_pos hq]
          rw [ih _ _ _ (by omega) (by rw [List.length_cons] at hinv; omega)]
          simp
      · have ht' : ¬ is_text_symbol img.symbols[i] img.sections = true := ht
        simp only [List.filter_cons] at hinv
        rw [if_neg (by rw [Bool.not_eq_true] at ht'; rw [ht']; simp)] at hinv
        have hq : ¬ qualifies img img.symbols[i] = true := by
          unfold qualifies
          simp only [Bool.and_eq_true_iff]
          tauto
        by_cases hidx : idx < funcCount
        · rw [fillLoop, dif_pos ⟨hi, hidx⟩]
          simp only
          rw [hget]
          rw [if_pos (by rw [Bool.not_eq_true] at ht'; rw [ht']; rfl)]
          rw [List.filter_cons_of_neg hq]
          exact ih _ _ _ (by omega) hinv
        · rw [fillLoop,
            dif_neg (show ¬ (i < img.symbols.length ∧ idx < funcCount) by tauto)]
          rw [List.filter_cons_of_neg hq]
          have hnone : ((primsFrom img.symbols (i + 1 + img.symbols[i].numberOfAuxSymbols)).filter (fun s => is_text_symbol s img.sections)).length = 0 := by
            omega
          rw [List.length_eq_zero] at hnone
          have hqnone : (primsFrom img.symbols (i + 1 + img.symbols[i].numberOfAuxSymbols)).filter (qualifies img) = [] := by
            rw [List.filter_eq_nil_iff] at hnone ⊢
            intro a ha hqa
            exact hnone a ha (qualifies_text hqa)
          rw [hqnone]
          simp
    · rw [fillLoop, primsFrom, dif_neg (by omega : ¬ i < img.symbols.length)]
      rw [dif_neg (show ¬ (i < img.symbols.length ∧ idx < funcCount) by tauto)]
      simp

/-- The entries built by `parse_coff_symbols` (before sorting) are exactly
the qualifying visited primary records, mapped to their table entries, in
visit order. -/
theorem parse_entries (img : CoffImage) (rbase : Nat) :
    fillLoop img rbase (countLoop img.symbols img.sections 0 0) 0 0 []
      = ((primsFrom img.symbols 0).filter (qualifies img)).map (entryOf img rbase) := by
  have hc := countLoop_eq img.symbols img.sections (img.symbols.length) 0 0 (by omega)
  rw [fillLoop_eq img rbase _ img.symbols.length 0 0 [] (by omega) (by omega)]
  simp

/-! ## Supporting lemmas: lifecycle congruence -/

/-- `find_symbol` reads only the table and the count. -/
theorem find_congr (st st' : SymState) (ht : st.symbolTable = st'.symbolTable)
    (hc : st.symbolCount = st'.symbolCount) (a : Nat) :
    find_symbol st a = find_symbol st' a := by
  unfold find_symbol
  rw [ht, hc]

/-- The parse return value and the table/count it publishes depend only on
the environment and the incoming table/count (never on the other state
fields). -/
theorem parse_congr (env : WinEnv) (st st' : SymState)
    (ht : st.symbolTable = st'.symbolTable) (hc : st.symbolCount = st'.symbolCount) :
    (parse_coff_symbols env st).1 = (parse_coff_symbols env st').1 ∧
    (parse_coff_symbols env st).2.symbolTable = (parse_coff_symbols env st').2.symbolTable ∧
    (parse_coff_symbols env st).2.symbolCount = (parse_coff_symbols env st').2.symbolCount := by
  unfold parse_coff_symbols
  split_ifs <;> try simp_all
  all_goals split_ifs <;> simp_all

/-- `parse_coff_symbols` never touches `initialized` or `parseCount`. -/
theorem parse_flags (env : WinEnv) (st : SymState) :
    (parse_coff_symbols env st).2.initialized = st.initialized ∧
    (parse_coff_symbols env st).2.parseCount = st.parseCount := by
  unfold parse_coff_symbols
  split_ifs <;> try simp_all
  all_goals split_ifs <;> simp_all

/-- The `ensure_initialized` return value and published table/count depend
only on the environment and the incoming `initialized`/table/count. -/
theorem ensure_congr (env : WinEnv) (st st' : SymState)
    (hini : st.initialized = st'.initialized)
    (ht : st.symbolTable = st'.symbolTable) (hc : st.symbolCount = st'.symbolCount) :
    (ensure_initialized env st).1 = (ensure_initialized env st').1 ∧
    (ensure_initialized env st).2.symbolTable = (ensure_initialized env st').2.symbolTable ∧
    (ensure_initialized env st).2.symbolCount = (ensure_initialized env st').2.symbolCount := by
  obtain ⟨p1, p2, p3⟩ := parse_congr env st st' ht hc
  unfold ensure_initialized
  rw [hini]
  by_cases h : st'.initialized
  · simp [h, ht, hc]
  · simp [h, p1, p2, p3]

/-- The observable outputs of `unw_get_proc_name_windows` (return value,
bytes written, offset written) depend only on the environment, the
arguments, and the incoming `initialized`/table/count. -/
theorem resolve_congr (env : WinEnv) (st st' : SymState)
    (hini : st.initialized = st'.initialized)
    (ht : st.symbolTable = st'.symbolTable) (hc : st.symbolCount = st'.symbolCount)
    (cursor : Option unw_cursor_t) (b : Bool) (l : Nat) (o : Bool) :
    (unw_get_proc_name_windows env st cursor b l o).ret
      = (unw_get_proc_name_windows env st' cursor b l o).ret ∧
    (unw_get_proc_name_windows env st cursor b l o).bufOut
      = (unw_get_proc_name_windows env st' cursor b l o).bufOut ∧
    (unw_get_proc_name_windows env st cursor b l o).offOut
      = (unw_get_proc_name_windows env st' cursor b l o).offOut := by
  obtain ⟨e1, e2, e3⟩ := ensure_congr env st st' hini ht hc
  have hfind : ∀ a, find_symbol (ensure_initialized env st).2 a
      = find_symbol (ensure_initialized env st').2 a :=
    fun a => find_congr _ _ e2 e3 a
  unfold unw_get_proc_name_windows
  by_cases hg : (cursor.isNone || !b || decide (l = 0)) = true
  · rw [if_pos hg, if_pos hg]
    exact ⟨rfl, rfl, rfl⟩
  · rw [if_neg hg, if_neg hg]
    simp only
    rw [← e1]
    by_cases h0 : (ensure_initialized env st).1 ≠ 0
    · rw [if_pos h0, if_pos h0]
      exact ⟨rfl, rfl, rfl⟩
    · rw [if_neg h0, if_neg h0]
      by_cases hr : !(cursor.getD ⟨false, 0⟩).regOk
      · rw [if_pos hr, if_pos hr]
        exact ⟨rfl, rfl, rfl⟩
      · rw [if_neg hr, if_neg hr]
        by_cases hip : (cursor.getD ⟨false, 0⟩).ip = 0
        · rw [if_pos hip, if_pos hip]
          exact ⟨rfl, rfl, rfl⟩
        · rw [if_neg hip, if_neg hip]
          rw [← hfind]
          cases hfs : find_symbol (ensure_initialized env st).2 (cursor.getD ⟨false, 0⟩).ip
          · exact ⟨rfl, rfl, rfl⟩
          · exact ⟨rfl, rfl, rfl⟩

/-! ## Supporting definitions: repeated initialization calls -/

/-- A sequence of `n` consecutive `unw_windows_sym_init` calls: the list of
their return values and the final state. -/
def initCalls (env : WinEnv) (st : SymState) : Nat → List Int × SymState
  | 0 => ([], st)
  | n + 1 =>
    let p := unw_windows_sym_init env st
    let q := initCalls env p.2 n
    (p.1 :: q.1, q.2)

/-- An init call on an initialized state returns 0 and changes nothing. -/
theorem init_of_initialized (env : WinEnv) (st : SymState) (h : st.initialized = true) :
    unw_windows_sym_init env st = (0, st) := by
  unfold unw_windows_sym_init ensure_initialized
  rw [if_pos h]

/-- Init calls on an initialized state all return 0 and change nothing. -/
theorem initCalls_initialized (env : WinEnv) :
    ∀ n (st : SymState), st.initialized = true →
      initCalls env st n = (List.replicate n 0, st) := by
  intro n
  induction n with
  | zero => intro st h; rfl
  | succ n ih =>
    intro st h
    unfold initCalls
    rw [init_of_initialized env st h]
    simp only
    rw [ih st h]
    rfl

/-- A first init call on an uninitialized state runs the parse pipeline
exactly once, marks the state initialized, and returns the parse result. -/
theorem init_of_uninitialized (env : WinEnv) (st : SymState) (h : st.initialized = false) :
    (unw_windows_sym_init env st).1 = (parse_coff_symbols env st).1 ∧
    (unw_windows_sym_init env st).2.initialized = true ∧
    (unw_windows_sym_init env st).2.parseCount = st.parseCount + 1 := by
  obtain ⟨hf1, hf2⟩ := parse_flags env st
  unfold unw_windows_sym_init ensure_initialized
  rw [if_neg (by rw [h]; simp)]
  simp [hf2]

/-! ## Concrete fixtures -/

/-- An executable section (`IMAGE_SCN_CNT_CODE`) at RVA `0x1000`. -/
def secText : IMAGE_SECTION_HEADER := ⟨0x1000, 0x20⟩

/-- An external function symbol named `foo` in section 1. -/
def symFoo : COFF_SYMBOL := ⟨[102, 111, 111, 0, 0, 0, 0, 0], 0, 1, 0x20, 2, 0⟩

/-- A well-formed image with one qualifying symbol `foo`. -/
def imgFoo : CoffImage := ⟨true, true, 0x140000000, 100, [secText], [symFoo], []⟩

/-- A healthy environment mapping `imgFoo` with runtime base `0x400000`:
symbol `foo` lands at runtime address `0x401000`. -/
def envFoo : WinEnv := ⟨true, 0x400000, true, true, true, imgFoo⟩

/-- An environment whose image path cannot be determined
(`GetModuleFileNameA` fails), so initialization fails. -/
def envFail : WinEnv := ⟨false, 0, false, false, false, imgFoo⟩

/-- A static symbol named `.text` in an executable section: counted by the
first pass of `parse_coff_symbols`, skipped by the second. -/
def symDot : COFF_SYMBOL := ⟨[46, 116, 101, 120, 116, 0, 0, 0], 0, 1, 0, 3, 0⟩

/-- An image whose only symbol is the internal `.text` symbol. -/
def imgDot : CoffImage := ⟨true, true, 0x140000000, 100, [secText], [symDot], []⟩

/-- A healthy environment mapping `imgDot`. -/
def envDot : WinEnv := ⟨true, 0x400000, true, true, true, imgDot⟩

/-! ## C2 -/

/-- C2 (counterexample): the claim says every `unw_windows_sym_init` call
returns the identical result the first (parsing) call produced; but after
a failed first initialization (image path cannot be determined, first call
returns -1) the second call returns 0. -/
theorem c2_init_once_cex :
    (unw_windows_sym_init envFail initState).1 = -1 ∧
    (unw_windows_sym_init envFail (unw_windows_sym_init envFail initState).2).1 = 0 := by
  decide

/-- C2 (amended): for every sequence of `unw_windows_sym_init` calls with
no intervening cleanup, the parse pipeline executes exactly once (the ghost
`parseCount` rises by exactly one); the FIRST call returns the parse
result, and every subsequent call returns 0 regardless of that result. -/
theorem c2_init_once (env : WinEnv) (st : SymState) (n : Nat)
    (h : st.initialized = false) :
    (initCalls env st (n + 1)).1 = (parse_coff_symbols env st).1 :: List.replicate n 0 ∧
    (initCalls env st (n + 1)).2.parseCount = st.parseCount + 1 := by
  obtain ⟨h1, h2, h3⟩ := init_of_uninitialized env st h
  unfold initCalls
  simp only
  rw [initCalls_initialized env n _ h2]
  simp [h1, h3]

/-- C2 witness: three consecutive init calls against the failing
environment: results `[-1, 0, 0]`, one parse execution. -/
theorem c2_init_once_witness :
    (initCalls envFail initState (2 + 1)).1
        = (parse_coff_symbols envFail initState).1 :: List.replicate 2 0 ∧
    (initCalls envFail initState (2 + 1)).2.parseCount = initState.parseCount + 1 :=
  c2_init_once envFail initState 2 rfl

/-! ## C1 -/

/-- C1 (counterexample): the claim says that after
`unw_windows_sym_cleanup`, `unw_get_proc_name_windows` never yields a name
until an explicit `unw_windows_sym_init` has succeeded; but the resolver
calls `ensure_initialized` itself, so after cleanup a lookup lazily
re-initializes and returns the name `foo` with return value 0 — with no
explicit init call in between. -/
theorem c1_resolve_after_cleanup_cex :
    (unw_get_proc_name_windows envFoo
        (unw_windows_sym_cleanup (unw_windows_sym_init envFoo initState).2)
        (some ⟨true, 0x401000⟩) true 64 true).ret = 0 ∧
    (unw_get_proc_name_windows envFoo
        (unw_windows_sym_cleanup (unw_windows_sym_init envFoo initState).2)
        (some ⟨true, 0x401000⟩) true 64 true).bufOut = some [102, 111, 111, 0] ∧
    (unw_get_proc_name_windows envFoo
        (unw_windows_sym_cleanup (unw_windows_sym_init envFoo initState).2)
        (some ⟨true, 0x401000⟩) true 64 true).offOut = some 0 := by
  simp [unw_get_proc_name_windows, unw_windows_sym_cleanup, unw_windows_sym_init,
    ensure_initialized, parse_coff_symbols, envFoo, imgFoo, symFoo, secText, countLoop,
    fillLoop, is_text_symbol, is_executable_section, IMAGE_SCN_CNT_CODE, symbolName,
    COFF_SYMBOL.longNameZeros, dwordLE, entryOf, sortEntries, insertEntry, initState,
    find_symbol, findLoop, readCString, UNW_EUNSPEC, UNW_ENOINFO, List.takeWhile]

/-- C1 (amended): after `unw_windows_sym_cleanup`, a
`unw_get_proc_name_windows` call before any explicit init re-runs
initialization lazily, and its observable outcome (return value, bytes
written, offset) is exactly that of a lookup from the fresh uninitialized
process state: it never reflects the freed pre-cleanup table (no stale
name), though it may return a freshly re-parsed name. -/
theorem c1_resolve_after_cleanup (env : WinEnv) (st : SymState)
    (h : st.initialized = true)
    (cursor : Option unw_cursor_t) (b : Bool) (l : Nat) (o : Bool) :
    (unw_get_proc_name_windows env (unw_windows_sym_cleanup st) cursor b l o).ret
      = (unw_get_proc_name_windows env initState cursor b l o).ret ∧
    (unw_get_proc_name_windows env (unw_windows_sym_cleanup st) cursor b l o).bufOut
      = (unw_get_proc_name_windows env initState cursor b l o).bufOut ∧
    (unw_get_proc_name_windows env (unw_windows_sym_cleanup st) cursor b l o).offOut
      = (unw_get_proc_name_windows env initState cursor b l o).offOut := by
  refine resolve_congr env (unw_windows_sym_cleanup st) initState ?_ ?_ ?_ cursor b l o <;>
    · unfold unw_windows_sym_cleanup
      rw [if_pos h]
      rfl

/-- C1 witness: after initializing against the healthy environment and
cleaning up, a lookup at `0x401000` gives the same outcome as from the
fresh process state. -/
theorem c1_resolve_after_cleanup_witness :
    (unw_get_proc_name_windows envFoo
        (unw_windows_sym_cleanup (unw_windows_sym_init envFoo initState).2)
        (some ⟨true, 0x401000⟩) true 64 true).ret
      = (unw_get_proc_name_windows envFoo initState
          (some ⟨true, 0x401000⟩) true 64 true).ret ∧
    (unw_get_proc_name_windows envFoo
        (unw_windows_sym_cleanup (unw_windows_sym_init envFoo initState).2)
        (some ⟨true, 0x401000⟩) true 64 true).bufOut
      = (unw_get_proc_name_windows envFoo initState
          (some ⟨true, 0x401000⟩) true 64 true).bufOut ∧
    (unw_get_proc_name_windows envFoo
        (unw_windows_sym_cleanup (unw_windows_sym_init envFoo initState).2)
        (some ⟨true, 0x401000⟩) true 64 true).offOut
      = (unw_get_proc_name_windows envFoo initState
          (some ⟨true, 0x401000⟩) true 64 true).offOut :=
  c1_resolve_after_cleanup envFoo (unw_windows_sym_init envFoo initState).2
    (init_of_uninitialized envFoo initState rfl).2.1
    (some ⟨true, 0x401000⟩) true 64 true

/-! ## C3 -/

/-- Filtering by a stronger predicate yields at most as many elements. -/
theorem length_filter_imp {α : Type} (p q : α → Bool) (l : List α)
    (h : ∀ a ∈ l, q a = true → p a = true) :
    (l.filter q).length ≤ (l.filter p).length := by
  induction l with
  | nil => simp
  | cons x xs ih =>
    have ih' := ih (fun a ha => h a (List.mem_cons_of_mem x ha))
    simp only [List.filter_cons]
    by_cases hq : q x = true
    · rw [if_pos hq, if_pos (h x (List.mem_cons_self x xs) hq)]
      simpa using ih'
    · rw [if_neg hq]
      by_cases hp : p x = true
      · rw [if_pos hp]
        simp only [List.length_cons]
        omega
      · rw [if_neg hp]
        exact ih'

/-- C3 (counterexample): the claim says pass one's count equals the number
of entries pass two fills; for an image whose only symbol is the static
text-section symbol `.text`, pass one counts 1 (it applies no name filter)
while pass two stores 0 entries (it skips dot-prefixed names), so the
allocation is strictly larger than the final table. -/
theorem c3_two_pass_alloc_cex :
    countLoop imgDot.symbols imgDot.sections 0 0 = 1 ∧
    (parse_coff_symbols envDot initState).2.symbolCount = 0 := by
  constructor
  · simp [countLoop, imgDot, symDot, secText, is_text_symbol, is_executable_section,
      IMAGE_SCN_CNT_CODE]
  · simp [parse_coff_symbols, envDot, imgDot, countLoop, fillLoop, is_text_symbol,
      is_executable_section, IMAGE_SCN_CNT_CODE, symDot, secText, symbolName,
      COFF_SYMBOL.longNameZeros, dwordLE, initState, List.takeWhile]

/-- When filtering by the stronger of two predicates loses nothing (equal
lengths), every element passing the weaker predicate passes the stronger
one. -/
theorem filter_length_eq_imp {α : Type} (p q : α → Bool) (l : List α)
    (himp : ∀ a ∈ l, q a = true → p a = true)
    (hlen : (l.filter q).length = (l.filter p).length) :
    ∀ a ∈ l, p a = true → q a = true := by
  induction l with
  | nil => simp
  | cons x xs ih =>
    have himp' : ∀ a ∈ xs, q a = true → p a = true :=
      fun a ha => himp a (List.mem_cons_of_mem x ha)
    have hle := length_filter_imp p q xs himp'
    simp only [List.filter_cons] at hlen
    by_cases hq : q x = true
    · rw [if_pos hq, if_pos (himp x (List.mem_cons_self x xs) hq)] at hlen
      simp only [List.length_cons] at hlen
      intro a ha hp
      rcases List.mem_cons.mp ha with rfl | ha'
      · exact hq
      · exact ih himp' (by omega) a ha' hp
    · rw [if_neg hq] at hlen
      by_cases hp : p x = true
      · rw [if_pos hp] at hlen
        simp only [List.length_cons] at hlen
        omega
      · rw [if_neg hp] at hlen
        intro a ha hpa
        rcases List.mem_cons.mp ha with rfl | ha'
        · exact absurd hpa hp
        · exact ih himp' hlen a ha' hpa

/-- C3 (amended): pass one's count bounds pass two from above — the single
allocation is never smaller than the final entry count; the two agree
exactly when (if and only if) no text symbol reached by the iteration has
a name starting with the internal marker `'.'`; and whenever some reached
text symbol does have a dot-name, the allocation strictly exceeds the
final entry count. -/
theorem c3_two_pass_alloc (img : CoffImage) (rbase : Nat) :
    (fillLoop img rbase (countLoop img.symbols img.sections 0 0) 0 0 []).length
      ≤ countLoop img.symbols img.sections 0 0 ∧
    ((fillLoop img rbase (countLoop img.symbols img.sections 0 0) 0 0 []).length
        = countLoop img.symbols img.sections 0 0 ↔
      ∀ s ∈ primsFrom img.symbols 0, is_text_symbol s img.sections = true →
        ¬ (symbolName s img.stringTable).headD 0 = 46) ∧
    ((∃ s ∈ primsFrom img.symbols 0, is_text_symbol s img.sections = true ∧
        (symbolName s img.stringTable).headD 0 = 46) →
      (fillLoop img rbase (countLoop img.symbols img.sections 0 0) 0 0 []).length
        < countLoop img.symbols img.sections 0 0) := by
  rw [parse_entries img rbase,
    countLoop_eq img.symbols img.sections img.symbols.length 0 0 (by omega)]
  simp only [Nat.zero_add, List.length_map]
  have hle := length_filter_imp (fun s => is_text_symbol s img.sections) (qualifies img)
    (primsFrom img.symbols 0) (fun a _ hq => qualifies_text hq)
  have hiff : ((primsFrom img.symbols 0).filter (qualifies img)).length
      = ((primsFrom img.symbols 0).filter
          (fun s => is_text_symbol s img.sections)).length ↔
      ∀ s ∈ primsFrom img.symbols 0, is_text_symbol s img.sections = true →
        ¬ (symbolName s img.stringTable).headD 0 = 46 := by
    constructor
    · intro heq s hs ht hdot
      have hq := filter_length_eq_imp (fun s => is_text_symbol s img.sections)
        (qualifies img) (primsFrom img.symbols 0)
        (fun a _ hqa => qualifies_text hqa) heq s hs ht
      unfold qualifies at hq
      rw [ht, decide_eq_true hdot] at hq
      simp at hq
    · intro hnd
      congr 1
      refine List.filter_congr ?_
      intro s hs
      unfold qualifies
      by_cases ht : is_text_symbol s img.sections = true
      · rw [ht, decide_eq_false (hnd s hs ht)]
        rfl
      · rw [Bool.not_eq_true] at ht
        rw [ht]
        rfl
  refine ⟨hle, hiff, ?_⟩
  rintro ⟨s, hs, ht, hdot⟩
  rcases lt_or_eq_of_le hle with h | h
  · exact h
  · exact absurd hdot (hiff.mp h s hs ht)

/-- C3 witness: for the healthy one-symbol image (no dot-name) the two
passes agree at 1, and for the image whose only symbol is the dot-named
`.text` the fill count is strictly below the pass-one count. -/
theorem c3_two_pass_alloc_witness :
    (fillLoop imgFoo 0x400000
        (countLoop imgFoo.symbols imgFoo.sections 0 0) 0 0 []).length
      = countLoop imgFoo.symbols imgFoo.sections 0 0 ∧
    (fillLoop imgDot 0x400000
        (countLoop imgDot.symbols imgDot.sections 0 0) 0 0 []).length
      < countLoop imgDot.symbols imgDot.sections 0 0 := by
  constructor
  · refine (c3_two_pass_alloc imgFoo 0x400000).2.1.mpr ?_
    intro s hs _
    have hp : primsFrom imgFoo.symbols 0 = [symFoo] := by
      simp [primsFrom, imgFoo, symFoo]
    rw [hp] at hs
    simp at hs
    subst hs
    simp [symbolName, symFoo, COFF_SYMBOL.longNameZeros, dwordLE, List.takeWhile]
  · refine (c3_two_pass_alloc imgDot 0x400000).2.2 ⟨symDot, ?_, ?_, ?_⟩
    · have hp : primsFrom imgDot.symbols 0 = [symDot] := by
        simp [primsFrom, imgDot, symDot]
      rw [hp]
      exact List.mem_singleton.mpr rfl
    · decide
    · decide

/-! ## Supporting lemma: resolver evaluation on a ready state -/

/-- On an initialized state, with a non-NULL cursor and buffer and nonzero
buffer length, `unw_get_proc_name_windows` reduces to the register check,
the zero-IP check, and the table lookup (initialization is a no-op). -/
theorem resolve_eval (env : WinEnv) (st : SymState) (cur : unw_cursor_t)
    (l : Nat) (o : Bool) (hl : l ≠ 0) (hinit : st.initialized = true) :
    unw_get_proc_name_windows env st (some cur) true l o =
      if !cur.regOk then ⟨UNW_EUNSPEC, none, none, st⟩
      else if cur.ip = 0 then ⟨UNW_ENOINFO, none, none, st⟩
      else match find_symbol st cur.ip with
        | none => ⟨UNW_ENOINFO, none, none, st⟩
        | some sym =>
          ⟨0, some (sym.name.take
              (if sym.name.length ≥ l then l - 1 else sym.name.length) ++ [0]),
           if o then some (cur.ip - sym.address) else none, st⟩ := by
  have he : ensure_initialized env st = (0, st) := by
    unfold ensure_initialized
    rw [if_pos hinit]
  unfold unw_get_proc_name_windows
  rw [if_neg (by simp [hl])]
  simp only [he, Option.getD_some, Option.isNone_some]
  rw [if_neg (by simp)]

/-! ## C9 -/

/-- C9: with a NULL cursor, a NULL output buffer, or buffer length zero,
`unw_get_proc_name_windows` returns `UNW_EUNSPEC` immediately: the global
state is returned untouched (in particular no initialization is triggered,
the ghost `parseCount` is unchanged) and nothing is written to the buffer
or the offset output. -/
theorem c9_arg_guard (env : WinEnv) (st : SymState) (cursor : Option unw_cursor_t)
    (b : Bool) (l : Nat) (o : Bool)
    (h : cursor = none ∨ b = false ∨ l = 0) :
    unw_get_proc_name_windows env st cursor b l o = ⟨UNW_EUNSPEC, none, none, st⟩ := by
  unfold unw_get_proc_name_windows
  rw [if_pos (by rcases h with h | h | h <;> simp [h])]

/-- C9 witness: a NULL cursor against the healthy environment and the
fresh state: immediate `UNW_EUNSPEC`, state untouched. -/
theorem c9_arg_guard_witness :
    unw_get_proc_name_windows envFoo initState none true 64 true
      = ⟨UNW_EUNSPEC, none, none, initState⟩ :=
  c9_arg_guard envFoo initState none true 64 true (Or.inl rfl)

/-! ## C7 -/

/-- C7: an image whose COFF symbol-table offset or symbol count is zero
initializes successfully (`unw_windows_sym_init` returns 0) with an empty
table (`NULL`, zero entries), and every subsequent resolver call with
valid arguments returns the miss `UNW_ENOINFO`, never an error. -/
theorem c7_empty_symtab_success (env : WinEnv)
    (hpath : env.pathOk = true) (hfile : env.fileOk = true) (hmap : env.mapOk = true)
    (hdos : env.image.dosMagicOk = true) (hnt : env.image.ntSignatureOk = true)
    (hempty : env.image.symbolTableOffset = 0 ∨ env.image.symbols = []) :
    (unw_windows_sym_init env initState).1 = 0 ∧
    (unw_windows_sym_init env initState).2.symbolTable = none ∧
    (unw_windows_sym_init env initState).2.symbolCount = 0 ∧
    ∀ (env2 : WinEnv) (cur : unw_cursor_t) (l : Nat) (o : Bool),
      cur.regOk = true → l ≠ 0 →
      (unw_get_proc_name_windows env2 (unw_windows_sym_init env initState).2
          (some cur) true l o).ret = UNW_ENOINFO := by
  have hp : (parse_coff_symbols env initState).1 = 0 ∧
      (parse_coff_symbols env initState).2.symbolTable = none ∧
      (parse_coff_symbols env initState).2.symbolCount = 0 := by
    unfold parse_coff_symbols
    rw [if_neg (by rw [hpath]; simp), if_neg (by rw [hfile]; simp),
      if_neg (by rw [hmap]; simp), if_neg (by rw [hdos]; simp), if_neg (by rw [hnt]; simp),
      if_pos (by rcases hempty with h | h <;> simp [h])]
    exact ⟨rfl, rfl, rfl⟩
  have hini : (unw_windows_sym_init env initState).1 = (parse_coff_symbols env initState).1 ∧
      (unw_windows_sym_init env initState).2.symbolTable
        = (parse_coff_symbols env initState).2.symbolTable ∧
      (unw_windows_sym_init env initState).2.symbolCount
        = (parse_coff_symbols env initState).2.symbolCount ∧
      (unw_windows_sym_init env initState).2.initialized = true := by
    unfold unw_windows_sym_init ensure_initialized
    rw [if_neg (by decide)]
    exact ⟨rfl, rfl, rfl, rfl⟩
  refine ⟨hini.1.trans hp.1, hini.2.1.trans hp.2.1, hini.2.2.1.trans hp.2.2, ?_⟩
  intro env2 cur l o hreg hl
  rw [resolve_eval env2 _ cur l o hl hini.2.2.2]
  rw [if_neg (by rw [hreg]; simp)]
  have hfs : find_symbol (unw_windows_sym_init env initState).2 cur.ip = none := by
    unfold find_symbol
    rw [hini.2.1.trans hp.2.1]
  rw [hfs]
  by_cases hip : cur.ip = 0
  · rw [if_pos hip]
  · rw [if_neg hip]

/-- C7 witness: an image with a symbol-table offset of zero: init returns
0 with an empty table, and a valid lookup at `0x401000` misses with
`UNW_ENOINFO`. -/
theorem c7_empty_symtab_success_witness :
    (unw_windows_sym_init ⟨true, 0x400000, true, true, true,
        ⟨true, true, 0x140000000, 0, [secText], [], []⟩⟩ initState).1 = 0 ∧
    (unw_windows_sym_init ⟨true, 0x400000, true, true, true,
        ⟨true, true, 0x140000000, 0, [secText], [], []⟩⟩ initState).2.symbolTable = none ∧
    (unw_get_proc_name_windows envFoo
        (unw_windows_sym_init ⟨true, 0x400000, true, true, true,
          ⟨true, true, 0x140000000, 0, [secText], [], []⟩⟩ initState).2
        (some ⟨true, 0x401000⟩) true 64 true).ret = UNW_ENOINFO := by
  have h := c7_empty_symtab_success
    ⟨true, 0x400000, true, true, true, ⟨true, true, 0x140000000, 0, [secText], [], []⟩⟩
    rfl rfl rfl rfl rfl (Or.inl rfl)
  exact ⟨h.1, h.2.1, h.2.2.2 envFoo ⟨true, 0x401000⟩ 64 true rfl (by omega)⟩

/-! ## C10 -/

/-- C10: on every successful resolve with buffer length `L ≥ 1`, the
string written to the buffer is NUL-terminated, is a prefix of the stored
symbol name of at most `L - 1` name bytes (`min` of the name length and
`L - 1`), occupies at most `L` bytes including the terminator, and the
return value is the success value 0 even when truncation occurred. -/
theorem c10_buffer_truncation (env : WinEnv) (st : SymState) (cur : unw_cursor_t)
    (l : Nat) (o : Bool) (sym : symbol_entry_t)
    (hinit : st.initialized = true) (hreg : cur.regOk = true) (hip : cur.ip ≠ 0)
    (hl : l ≠ 0)
    (hfind : find_symbol st cur.ip = some sym) :
    (unw_get_proc_name_windows env st (some cur) true l o).ret = 0 ∧
    (unw_get_proc_name_windows env st (some cur) true l o).bufOut
      = some (sym.name.take (min sym.name.length (l - 1)) ++ [0]) ∧
    min sym.name.length (l - 1) + 1 ≤ l := by
  rw [resolve_eval env st cur l o hl hinit]
  rw [if_neg (by rw [hreg]; simp), if_neg hip, hfind]
  have hnl : (if sym.name.length ≥ l then l - 1 else sym.name.length)
      = min sym.name.length (l - 1) := by
    by_cases hge : sym.name.length ≥ l
    · rw [if_pos hge]; omega
    · rw [if_neg hge]; omega
  refine ⟨rfl, ?_, by omega⟩
  show some (sym.name.take
      (if sym.name.length ≥ l then l - 1 else sym.name.length) ++ [0])
    = some (sym.name.take (min sym.name.length (l - 1)) ++ [0])
  rw [hnl]

/-- A ready state whose table has one five-byte name at `0x1000` (used by
the C10 and C4/C6 witnesses). -/
def stAbcde : SymState := ⟨true, some [⟨0x1000, [97, 98, 99, 100, 101]⟩], 1, 0, 0, 0⟩

/-- C10 witness: resolving `abcde` into a 3-byte buffer writes `ab\0`
(2 name bytes + terminator = 3 ≤ 3) and still returns 0. -/
theorem c10_buffer_truncation_witness :
    (unw_get_proc_name_windows envFail stAbcde (some ⟨true, 0x1000⟩) true 3 true).ret = 0 ∧
    (unw_get_proc_name_windows envFail stAbcde (some ⟨true, 0x1000⟩) true 3 true).bufOut
      = some ([97, 98, 99, 100, 101].take (min 5 2) ++ [0]) ∧
    min 5 2 + 1 ≤ 3 := by
  have hfind : find_symbol stAbcde 0x1000 = some ⟨0x1000, [97, 98, 99, 100, 101]⟩ := by
    unfold find_symbol stAbcde
    simp only
    rw [if_neg (by omega)]
    rw [findLoop, dif_pos (by omega : (0 : Nat) < 1)]
    simp only
    rw [if_pos (by simp [List.getD])]
    rw [findLoop, dif_neg (by omega : ¬ (1 : Nat) < 1)]
    simp [List.getD]
  have h := c10_buffer_truncation envFail stAbcde ⟨true, 0x1000⟩ 3 true
    ⟨0x1000, [97, 98, 99, 100, 101]⟩ rfl rfl (by decide) (by decide) hfind
  exact h

/-! ## C4 -/

/-- C4: on a ready state whose table is sorted with distinct (strictly
increasing) addresses, resolving at the exact address of entry `i` returns
that entry's name with offset 0, and resolving at a query strictly between
entry `i` and entry `i+1`, within the proximity threshold of entry `i`,
returns entry `i`'s name with offset `query − entry[i].address` (the
buffer is large enough for the whole name, and a nonzero IP is queried). -/
theorem c4_resolver_floor (env : WinEnv) (st : SymState) (table : List symbol_entry_t)
    (i : Nat) (cur : unw_cursor_t) (l : Nat)
    (hinit : st.initialized = true)
    (htab : st.symbolTable = some table)
    (hcount : st.symbolCount = table.length)
    (hsorted : ∀ a b, a < b → b < table.length →
      (table.getD a default).address < (table.getD b default).address)
    (hi : i < table.length)
    (hip : cur.ip ≠ 0) (hreg : cur.regOk = true)
    (hbuf : (table.getD i default).name.length < l) :
    (cur.ip = (table.getD i default).address →
      unw_get_proc_name_windows env st (some cur) true l true
        = ⟨0, some ((table.getD i default).name ++ [0]), some 0, st⟩) ∧
    (i + 1 < table.length →
      (table.getD i default).address < cur.ip →
      cur.ip < (table.getD (i + 1) default).address →
      cur.ip - (table.getD i default).address < 0x100000 →
      unw_get_proc_name_windows env st (some cur) true l true
        = ⟨0, some ((table.getD i default).name ++ [0]),
            some (cur.ip - (table.getD i default).address), st⟩) := by
  have hl : l ≠ 0 := by omega
  have hmono : ∀ a b, a ≤ b → b < table.length →
      (table.getD a default).address ≤ (table.getD b default).address := by
    intro a b hab hb
    rcases Nat.lt_or_ge a b with h | h
    · exact le_of_lt (hsorted a b h hb)
    · have hab' : a = b := by omega
      rw [hab']
  have hname : (table.getD i default).name.take
      (if (table.getD i default).name.length ≥ l then l - 1
       else (table.getD i default).name.length) = (table.getD i default).name := by
    rw [if_neg (by omega)]
    exact List.take_length _
  constructor
  · intro hexact
    have hfind : find_symbol st cur.ip = some (table.getD i default) := by
      refine find_symbol_floor st table cur.ip i htab hcount hi (by omega) ?_ hmono (by omega)
      intro j hij hj
      rw [hexact]
      exact hsorted i j hij hj
    rw [resolve_eval env st cur l true hl hinit]
    rw [if_neg (by rw [hreg]; simp), if_neg hip, hfind]
    show (⟨0, some ((table.getD i default).name.take _ ++ [0]),
      some (cur.ip - (table.getD i default).address), st⟩ : ProcNameOut) = _
    rw [hname, hexact, Nat.sub_self]
  · intro hi1 hlo hhi hnear
    have hfind : find_symbol st cur.ip = some (table.getD i default) := by
      refine find_symbol_floor st table cur.ip i htab hcount hi (le_of_lt hlo) ?_ hmono hnear
      intro j hij hj
      have : (table.getD (i + 1) default).address ≤ (table.getD j default).address :=
        hmono (i + 1) j (by omega) hj
      omega
    rw [resolve_eval env st cur l true hl hinit]
    rw [if_neg (by rw [hreg]; simp), if_neg hip, hfind]
    show (⟨0, some ((table.getD i default).name.take _ ++ [0]),
      some (cur.ip - (table.getD i default).address), st⟩ : ProcNameOut) = _
    rw [hname]

/-- A two-entry sorted table (`a` at `0x1000`, `b` at `0x2000`) and the
ready state holding it (C4/C6 witnesses). -/
def tablePair : List symbol_entry_t := [⟨0x1000, [97]⟩, ⟨0x2000, [98]⟩]

/-- Ready state holding `tablePair`. -/
def stPair : SymState := ⟨true, some tablePair, 2, 0, 0, 0⟩

/-- C4 witness: an exact hit at `0x1000` returns `a` with offset 0, and a
query at `0x1800` (strictly between the two entries, within 1 MiB of the
first) returns `a` with offset `0x800`. -/
theorem c4_resolver_floor_witness :
    unw_get_proc_name_windows envFail stPair (some ⟨true, 0x1000⟩) true 16 true
      = ⟨0, some ([97] ++ [0]), some 0, stPair⟩ ∧
    unw_get_proc_name_windows envFail stPair (some ⟨true, 0x1800⟩) true 16 true
      = ⟨0, some ([97] ++ [0]), some (0x1800 - 0x1000), stPair⟩ := by
  have hsorted : ∀ a b, a < b → b < tablePair.length →
      (tablePair.getD a default).address < (tablePair.getD b default).address := by
    intro a b h1 h2
    have hab : a = 0 ∧ b = 1 := by
      simp [tablePair] at h2
      omega
    obtain ⟨ha, hb⟩ := hab
    subst ha
    subst hb
    decide
  constructor
  · exact (c4_resolver_floor envFail stPair tablePair 0 ⟨true, 0x1000⟩ 16 rfl rfl rfl
      hsorted (by decide) (by decide) rfl (by decide)).1 rfl
  · exact (c4_resolver_floor envFail stPair tablePair 0 ⟨true, 0x1800⟩ 16 rfl rfl rfl
      hsorted (by decide) (by decide) rfl (by decide)).2
      (by decide) (by decide) (by decide) (by decide)

/-! ## C6 -/

/-- C6: when the floor entry for the query (the greatest indexed address
not exceeding it) lies more than the 1 MiB proximity threshold below the
query — in particular for any query more than the threshold past the last
entry — `find_symbol` reports no match and the resolver returns the miss
`UNW_ENOINFO`, not a name and not an error. -/
theorem c6_proximity_reject (env : WinEnv) (st : SymState) (table : List symbol_entry_t)
    (i : Nat) (cur : unw_cursor_t) (l : Nat) (o : Bool)
    (hinit : st.initialized = true)
    (htab : st.symbolTable = some table)
    (hcount : st.symbolCount = table.length)
    (hsorted : ∀ a b, a < b → b < table.length →
      (table.getD a default).address < (table.getD b default).address)
    (hi : i < table.length)
    (hle : (table.getD i default).address ≤ cur.ip)
    (hup : ∀ j, i < j → j < table.length → cur.ip < (table.getD j default).address)
    (hfar : 0x100000 < cur.ip - (table.getD i default).address)
    (hip : cur.ip ≠ 0) (hreg : cur.regOk = true) (hl : l ≠ 0) :
    find_symbol st cur.ip = none ∧
    (unw_get_proc_name_windows env st (some cur) true l o).ret = UNW_ENOINFO := by
  have hmono : ∀ a b, a ≤ b → b < table.length →
      (table.getD a default).address ≤ (table.getD b default).address := by
    intro a b hab hb
    rcases Nat.lt_or_ge a b with h | h
    · exact le_of_lt (hsorted a b h hb)
    · have hab' : a = b := by omega
      rw [hab']
  have hfind : find_symbol st cur.ip = none :=
    find_symbol_far st table cur.ip i htab hcount hi hle hup hmono (by omega)
  refine ⟨hfind, ?_⟩
  rw [resolve_eval env st cur l o hl hinit]
  rw [if_neg (by rw [hreg]; simp), if_neg hip, hfind]

/-- C6 witness: a query `0x100001` bytes past the last entry of the
two-entry table misses with `UNW_ENOINFO`. -/
theorem c6_proximity_reject_witness :
    find_symbol stPair 0x102001 = none ∧
    (unw_get_proc_name_windows envFail stPair (some ⟨true, 0x102001⟩) true 16 true).ret
      = UNW_ENOINFO := by
  refine c6_proximity_reject envFail stPair tablePair 1 ⟨true, 0x102001⟩ 16 true
    rfl rfl rfl ?_ (by decide) (by decide) ?_ (by decide) (by decide) rfl (by decide)
  · intro a b h1 h2
    have hab : a = 0 ∧ b = 1 := by
      simp [tablePair] at h2
      omega
    obtain ⟨ha, hb⟩ := hab
    subst ha
    subst hb
    decide
  · intro j h1 h2
    simp [tablePair] at h2
    omega

/-! ## C5 -/

/-- After `parse_coff_symbols` the table is either untouched or is the
sorted result of the two-pass build. -/
theorem parse_table_src (env : WinEnv) (st : SymState) :
    (parse_coff_symbols env st).2.symbolTable = st.symbolTable ∨
    (parse_coff_symbols env st).2.symbolTable
      = some (sortEntries (fillLoop env.image env.runtimeBase
          (countLoop env.image.symbols env.image.sections 0 0) 0 0 [])) := by
  unfold parse_coff_symbols
  split_ifs <;> try (first | exact Or.inl rfl | exact Or.inr rfl)
  all_goals
    by_cases hfc : countLoop env.image.symbols env.image.sections 0 0 = 0 <;> simp [hfc]

/-- C5: starting from a state with no table (fresh or cleaned up), every
entry that `parse_coff_symbols` stores in the symbol table has address
`runtime_load_base + section.virtual_address + symbol.value`, where the
section is the one the symbol's 1-based section index refers to. -/
theorem c5_address_translation (env : WinEnv) (st : SymState)
    (table : List symbol_entry_t)
    (hst : st.symbolTable = none)
    (htab : (parse_coff_symbols env st).2.symbolTable = some table) :
    ∀ e ∈ table, ∃ sym, sym ∈ env.image.symbols ∧
      is_text_symbol sym env.image.sections = true ∧
      e.address = env.runtimeBase +
        ((env.image.sections.getD (sym.sectionNumber.toNat - 1) default).virtualAddress
          + sym.value) := by
  rcases parse_table_src env st with h | h
  · have hcontra := h.symm.trans htab
    rw [hst] at hcontra
    exact absurd hcontra (by simp)
  · have htab' := Option.some.inj (htab.symm.trans h)
    subst htab'
    intro e he
    rw [mem_sortEntries, parse_entries env.image env.runtimeBase] at he
    obtain ⟨sym, hsymmem, hent⟩ := List.mem_map.mp he
    rw [List.mem_filter] at hsymmem
    obtain ⟨hmem, hq⟩ := hsymmem
    refine ⟨sym, primsFrom_subset env.image.symbols env.image.symbols.length 0
      (by omega) sym hmem, qualifies_text hq, ?_⟩
    rw [← hent]
    rfl

/-- C5 witness: the single entry built from the healthy one-symbol image
satisfies the translation invariant (`0x401000 = 0x400000 + 0x1000 + 0`). -/
theorem c5_address_translation_witness :
    ∃ sym, sym ∈ envFoo.image.symbols ∧
      is_text_symbol sym envFoo.image.sections = true ∧
      (0x401000 : Nat) = envFoo.runtimeBase +
        ((envFoo.image.sections.getD (sym.sectionNumber.toNat - 1) default).virtualAddress
          + sym.value) := by
  have htab : (parse_coff_symbols envFoo initState).2.symbolTable
      = some [⟨0x401000, [102, 111, 111]⟩] := by
    simp [parse_coff_symbols, envFoo, imgFoo, symFoo, secText, countLoop, fillLoop,
      is_text_symbol, is_executable_section, IMAGE_SCN_CNT_CODE, symbolName,
      COFF_SYMBOL.longNameZeros, dwordLE, entryOf, sortEntries, insertEntry, initState,
      List.takeWhile]
  exact c5_address_translation envFoo initState [⟨0x401000, [102, 111, 111]⟩] rfl htab
    ⟨0x401000, [102, 111, 111]⟩ (by simp)

/-! ## C8 -/

/-- C8: both passes walk the raw records along the same index chain that
advances by `1 + aux_count` per visited primary record: the count pass
counts exactly the text symbols among the visited primaries, the fill pass
indexes exactly the qualifying visited primaries in their original order
(before sorting), the visited records are the raw records at the visited
indices, and no raw index in `(p, p + aux_count(p)]` after a visited
primary `p` is ever visited (aux records are never parsed as names). -/
theorem c8_aux_skip (img : CoffImage) (rbase : Nat) :
    countLoop img.symbols img.sections 0 0
      = ((primsFrom img.symbols 0).filter (fun s => is_text_symbol s img.sections)).length ∧
    fillLoop img rbase (countLoop img.symbols img.sections 0 0) 0 0 []
      = ((primsFrom img.symbols 0).filter (qualifies img)).map (entryOf img rbase) ∧
    primsFrom img.symbols 0
      = (primIdxFrom img.symbols 0).map (fun k => img.symbols.getD k default) ∧
    ∀ p ∈ primIdxFrom img.symbols 0, ∀ j, p < j →
      j ≤ p + (img.symbols.getD p default).numberOfAuxSymbols →
      j ∉ primIdxFrom img.symbols 0 := by
  refine ⟨?_, parse_entries img rbase,
    primsFrom_eq_map img.symbols img.symbols.length 0 (by omega),
    primIdxFrom_skip img.symbols img.symbols.length 0 (by omega)⟩
  rw [countLoop_eq img.symbols img.sections img.symbols.length 0 0 (by omega)]
  omega

/-- A qualifying symbol `bar` followed by one auxiliary record whose raw
bytes would themselves qualify as a text symbol if (wrongly) visited. -/
def symBar : COFF_SYMBOL := ⟨[98, 97, 114, 0, 0, 0, 0, 0], 0, 1, 0x20, 2, 1⟩

/-- The raw record shadowed by `symBar`'s aux count. -/
def symShadow : COFF_SYMBOL := ⟨[1, 1, 1, 1, 1, 1, 1, 1], 0, 1, 0x20, 2, 0⟩

/-- Image interleaving an aux record after the primary `bar`. -/
def imgBar : CoffImage := ⟨true, true, 0x140000000, 100, [secText], [symBar, symShadow], []⟩

/-- C8 witness: in the interleaved image only `bar` is indexed — the fill
pass stores exactly `[bar@0x401000]` — and raw index 1 (the aux record,
which would qualify as a text symbol if visited) is never visited. -/
theorem c8_aux_skip_witness :
    fillLoop imgBar 0x400000 (countLoop imgBar.symbols imgBar.sections 0 0) 0 0 []
      = [⟨0x401000, [98, 97, 114]⟩] ∧
    (1 : Nat) ∉ primIdxFrom imgBar.symbols 0 := by
  have h := c8_aux_skip imgBar 0x400000
  constructor
  · rw [h.2.1]
    have hp : primsFrom imgBar.symbols 0 = [symBar] := by
      simp [primsFrom, imgBar, symBar, symShadow]
    rw [hp]
    simp [qualifies, is_text_symbol, imgBar, symBar, secText, is_executable_section,
      IMAGE_SCN_CNT_CODE, symbolName, COFF_SYMBOL.longNameZeros, dwordLE, entryOf,
      List.takeWhile]
  · refine h.2.2.2 0 ?_ 1 (by omega) ?_
    · rw [primIdxFrom]
      rw [dif_pos (by simp [imgBar])]
      exact List.mem_cons_self _ _
    · simp [imgBar, symBar, List.getD]
